import Mathlib

/-!
Verification development for the resym command-line client (resymc) and the
engine contract it exercises.

The first part embeds the command-line wrapper from src/bin/resymc.rs:
the commands it sends to the backend, the single reply it waits for, and the
bytes it writes to an output file or to standard output.

The second part models the engine (type index, dependency resolver,
reconstructor, command processor) from the specification, since its source
is not part of this repository snapshot.
-/

/-- Commands the caller sends to the engine, as used by resymc.rs
(`BackendCommand::LoadPDB`, `BackendCommand::UpdateTypeFilter`,
`BackendCommand::ReconstructTypeByName`). -/
inductive BackendCommand where
  | LoadPDB (path : String)
  | UpdateTypeFilter (filter : String) (caseInsensitive useRegex : Bool)
  | ReconstructTypeByName (name : String)
      (printHeader printDependencies printAccessSpecifiers : Bool)
deriving DecidableEq

/-- Error taxonomy of the engine. Modelled from the spec (section 7);
the engine source is not in this snapshot. -/
inductive EngineError where
  | IoError
  | FormatError
  | InvalidQueryError
  | NotFoundError
  | AmbiguousNameError
  | StaleSessionError
  | SendError
deriving DecidableEq

/-- Events the engine delivers to the caller. The two success constructors
are the ones resymc.rs pattern-matches on
(`FrontendCommand::UpdateFilteredTypes`, `FrontendCommand::UpdateReconstructedType`);
the error constructor is modelled from the spec (section 6: error events carry
a taxonomy value plus a human-readable detail string). Identifiers are
modelled as natural numbers. -/
inductive FrontendCommand where
  | UpdateFilteredTypes (typeList : List (String × Nat))
  | UpdateReconstructedType (text : String)
  | Error (e : EngineError) (message : String)
deriving DecidableEq

/-- Observable outcome of one resymc command invocation: the backend commands
it sent, how many reply events it consumed, the bytes written to the output
file (when a path was given), the bytes printed to standard output, and the
process-level result. -/
structure RunOutcome where
  sent : List BackendCommand
  consumed : Nat
  fileOut : Option String
  stdoutOut : String
  result : Except String Unit

/-- Embedding of `ResymcApp::list_types_command`: send `LoadPDB` then
`UpdateTypeFilter`, block for one event; on `UpdateFilteredTypes` write each
name's bytes to the output file (`write_all(type_name.as_bytes())`, no
separator) or print each name on its own line to stdout (`println!`);
on any other event return the error
"Invalid response received from the backend?". The `events` argument is the
stream of events the backend will deliver; `recv()?` fails when it is empty
(disconnected channel). -/
def listTypesCommand (pdbPath typeNameFilter : String)
    (caseInsensitive useRegex : Bool) (outputFilePath : Option String)
    (events : List FrontendCommand) : RunOutcome :=
  let sent := [BackendCommand.LoadPDB pdbPath,
    BackendCommand.UpdateTypeFilter typeNameFilter caseInsensitive useRegex]
  match events with
  | [] => ⟨sent, 0, none, "", Except.error "receiving on an empty and disconnected channel"⟩
  | ev :: _ =>
    match ev with
    | FrontendCommand.UpdateFilteredTypes typeList =>
      match outputFilePath with
      | some _ =>
        ⟨sent, 1, some (String.join (typeList.map Prod.fst)), "", Except.ok ()⟩
      | none =>
        ⟨sent, 1, none, String.join (typeList.map (fun p => p.fst ++ "\n")), Except.ok ()⟩
    | _ => ⟨sent, 1, none, "", Except.error "Invalid response received from the backend?"⟩

/-- The set of language grammars the highlighter can look up, by exact name
or by file extension (syntect's `SyntaxSet`; the found grammar is represented
by a handle string). -/
structure GrammarSet where
  findByName : String → Option String
  findByExtension : String → Option String

/-- Embedding of `CodeHighlighter::highlight`: look the language up by name,
then by extension; if both fail return `none` (the `?` operator), otherwise
render every line and return the concatenation. The terminal-escape rendering
itself is external (syntect), abstracted as `render`. -/
def highlightCode (ps : GrammarSet) (render : String → String → String)
    (code language : String) : Option String :=
  match ps.findByName language with
  | some syn => some (render syn code)
  | none =>
    match ps.findByExtension language with
    | some syn => some (render syn code)
    | none => none

/-- Embedding of `ResymcApp::dump_types_command`: send `LoadPDB` then
`ReconstructTypeByName`, block for one event; on `UpdateReconstructedType`
write the text's bytes to the output file when a path was given, otherwise
highlight (with language "cpp") and print when the highlight flag is set
(printing nothing when the highlighter returns `none`), otherwise print the
plain text; on any other event return the error
"Invalid response received from the backend?". -/
def dumpTypesCommand (pdbPath typeName : String)
    (printHeader printDependencies printAccessSpecifiers highlightFlag : Bool)
    (outputFilePath : Option String)
    (ps : GrammarSet) (render : String → String → String)
    (events : List FrontendCommand) : RunOutcome :=
  let sent := [BackendCommand.LoadPDB pdbPath,
    BackendCommand.ReconstructTypeByName typeName
      printHeader printDependencies printAccessSpecifiers]
  match events with
  | [] => ⟨sent, 0, none, "", Except.error "receiving on an empty and disconnected channel"⟩
  | ev :: _ =>
    match ev with
    | FrontendCommand.UpdateReconstructedType reconstructedType =>
      match outputFilePath with
      | some _ => ⟨sent, 1, some reconstructedType, "", Except.ok ()⟩
      | none =>
        if highlightFlag then
          match highlightCode ps render reconstructedType "cpp" with
          | some colorized => ⟨sent, 1, none, colorized ++ "\n", Except.ok ()⟩
          | none => ⟨sent, 1, none, "", Except.ok ()⟩
        else ⟨sent, 1, none, reconstructedType ++ "\n", Except.ok ()⟩
    | _ => ⟨sent, 1, none, "", Except.error "Invalid response received from the backend?"⟩

/-- One name per line: each name followed by a newline. This is what the
claimed listing format demands. -/
def onePerLine (names : List String) : String :=
  String.join (names.map (fun n => n ++ "\n"))

/-! ## Engine data model

The engine's source is not part of this repository snapshot; the following
definitions are modelled from the specification (sections 3 and 4). -/

/-- Modelled from the spec: the kind of a declared type
(struct/class/union/enum/alias). -/
inductive TypeKind where
  | struct
  | cls
  | union
  | enum
  | tyAlias
deriving DecidableEq

/-- Modelled from the spec: one member of a composite type — name, byte
offset, referenced type identifier, access specifier (0 public, 1 protected,
2 private), and whether the reference goes through a pointer/reference. -/
structure Member where
  name : String
  offset : Nat
  tyId : Nat
  access : Nat
  isPointer : Bool
deriving DecidableEq

/-- Modelled from the spec: immutable description of one declared type. -/
structure TypeRecord where
  id : Nat
  kind : TypeKind
  name : String
  size : Nat
  members : List Member
  bases : List (Nat × Nat)
  enumerators : List (String × Int)
deriving DecidableEq

/-- Modelled from the spec: the state produced by one successful load —
the parsed type stream's records in declaration order, the source file
identity, and a generation tag. -/
structure Session where
  records : List TypeRecord
  sourceFile : String
  generation : Nat
deriving DecidableEq

/-- The identifiers present in a session, in declaration order. -/
def sessionIds (s : Session) : List Nat :=
  s.records.map TypeRecord.id

/-- Modelled from the spec: a filter query — pattern, case-insensitive flag,
regex flag. -/
structure FilterQuery where
  pattern : String
  caseInsensitive : Bool
  useRegex : Bool
deriving DecidableEq

/-! ## Regular-expression matching

Modelled from the spec: "when set, match is a full regular-expression match
against the display name", with anchors (`^`, `$`), literals, `.` and `*`
as the representative construct set; an unparseable pattern yields
`InvalidQueryError`. -/

/-- One regular-expression atom: a literal character, any character,
or a starred (zero-or-more) version of either. -/
inductive Atom where
  | lit (c : Char)
  | dot
  | starLit (c : Char)
  | starDot
deriving DecidableEq

/-- A parsed regular expression: optional start/end anchors around a
sequence of atoms. -/
structure Regex where
  anchorStart : Bool
  anchorEnd : Bool
  atoms : List Atom
deriving DecidableEq

/-- Parse the body of a pattern into atoms; fails on a dangling `*` or an
escape (unsupported constructs are rejected, per the spec's
`InvalidQueryError` for malformed patterns). -/
def parseAtoms : List Char → Option (List Atom)
  | [] => some []
  | '*' :: _ => none
  | '\\' :: _ => none
  | c :: '*' :: rest =>
    (parseAtoms rest).map
      (fun as => (if c == '.' then Atom.starDot else Atom.starLit c) :: as)
  | c :: rest =>
    (parseAtoms rest).map
      (fun as => (if c == '.' then Atom.dot else Atom.lit c) :: as)

/-- Parse a whole pattern: strip a leading `^` and a trailing `$`,
then parse the body. -/
def parseRegex (cs : List Char) : Option Regex :=
  let startPair : Bool × List Char :=
    match cs with
    | '^' :: r => (true, r)
    | _ => (false, cs)
  let endPair : Bool × List Char :=
    if startPair.2.getLast? = some '$' then (true, startPair.2.dropLast)
    else (false, startPair.2)
  (parseAtoms endPair.2).map (fun as => ⟨startPair.1, endPair.1, as⟩)

/-- Fuel-bounded core of atom matching: match a sequence of atoms against
the front of a character list; when the end-anchor flag is true the whole
remainder must be consumed. Every recursive call shrinks the combined size
of atoms and subject by at least one, so the wrapper's fuel never runs out. -/
def matchAtomsF : Nat → List Atom → List Char → Bool → Bool
  | 0, _, _, _ => false
  | Nat.succ _, [], cs, endAnchored => !endAnchored || cs.isEmpty
  | Nat.succ _, Atom.lit _ :: _, [], _ => false
  | Nat.succ f, Atom.lit a :: ats, c :: cs, endAnchored =>
    a == c && matchAtomsF f ats cs endAnchored
  | Nat.succ _, Atom.dot :: _, [], _ => false
  | Nat.succ f, Atom.dot :: ats, _ :: cs, endAnchored =>
    matchAtomsF f ats cs endAnchored
  | Nat.succ f, Atom.starLit _ :: ats, [], endAnchored =>
    matchAtomsF f ats [] endAnchored
  | Nat.succ f, Atom.starLit a :: ats, c :: cs, endAnchored =>
    matchAtomsF f ats (c :: cs) endAnchored ||
      (a == c && matchAtomsF f (Atom.starLit a :: ats) cs endAnchored)
  | Nat.succ f, Atom.starDot :: ats, [], endAnchored =>
    matchAtomsF f ats [] endAnchored
  | Nat.succ f, Atom.starDot :: ats, c :: cs, endAnchored =>
    matchAtomsF f ats (c :: cs) endAnchored ||
      matchAtomsF f (Atom.starDot :: ats) cs endAnchored

/-- Match a sequence of atoms against the front of a character list; when
`endAnchored` is true the whole remainder must be consumed. -/
def matchAtoms (ats : List Atom) (cs : List Char) (endAnchored : Bool) : Bool :=
  matchAtomsF (ats.length + cs.length + 1) ats cs endAnchored

/-- Try to match starting at every position of the subject. -/
def searchFrom (ats : List Atom) (endAnchored : Bool) : List Char → Bool
  | [] => matchAtoms ats [] endAnchored
  | c :: cs => matchAtoms ats (c :: cs) endAnchored || searchFrom ats endAnchored cs

/-- Whether a parsed regular expression matches somewhere in the subject
(everywhere constrained by the anchors). -/
def regexAccepts (re : Regex) (cs : List Char) : Bool :=
  if re.anchorStart then matchAtoms re.atoms cs re.anchorEnd
  else searchFrom re.atoms re.anchorEnd cs

/-- Whether `pat` occurs at the front of `cs`. -/
def prefixMatch : List Char → List Char → Bool
  | [], _ => true
  | _ :: _, [] => false
  | a :: as, b :: bs => a == b && prefixMatch as bs

/-- Substring containment of `pat` in `cs`. -/
def containsSub : List Char → List Char → Bool
  | pat, [] => pat.isEmpty
  | pat, c :: cs => prefixMatch pat (c :: cs) || containsSub pat cs

/-- Lowercase the characters when the query is case-insensitive. -/
def prepChars (caseInsensitive : Bool) (cs : List Char) : List Char :=
  if caseInsensitive then cs.map Char.toLower else cs

/-- Modelled from the spec: `TypeIndex.search` — an ordered sequence of
(display name, identifier) pairs, in declaration order, containing the
records whose display name matches the query; substring containment when
the regex flag is unset, full regular-expression matching when it is set;
an unparseable regular expression yields `InvalidQueryError`. -/
def search (s : Session) (q : FilterQuery) :
    Except EngineError (List (String × Nat)) :=
  if q.useRegex then
    match parseRegex (prepChars q.caseInsensitive q.pattern.data) with
    | none => Except.error EngineError.InvalidQueryError
    | some re =>
      Except.ok (((s.records.filter
        (fun r => regexAccepts re (prepChars q.caseInsensitive r.name.data))).map
        (fun r => (r.name, r.id))))
  else
    Except.ok (((s.records.filter
      (fun r => containsSub (prepChars q.caseInsensitive q.pattern.data)
        (prepChars q.caseInsensitive r.name.data))).map
      (fun r => (r.name, r.id))))

/-! ## Dependency resolver

Modelled from the spec (section 4.3): depth-first traversal from the root
over TypeReference edges (members, base classes), maintaining a
"currently on path" marker per identifier to detect back-edges; emission is
post-order, so a type is scheduled after its (non-cyclic) dependencies. -/

/-- The identifiers a type's declaration references directly: its members'
types and its base classes. Unknown identifiers have no dependencies. -/
def depsOf (s : Session) (i : Nat) : List Nat :=
  match s.records.find? (fun r => r.id == i) with
  | none => []
  | some r => r.members.map Member.tyId ++ r.bases.map Prod.fst

/-- Reachability along dependency edges (reflexive-transitive closure).
A dependency `d` of `u` is cyclic exactly when `d` reaches back to `u`. -/
inductive Reaches (g : Nat → List Nat) : Nat → Nat → Prop where
  | refl (v : Nat) : Reaches g v v
  | step {u d w : Nat} : d ∈ g u → Reaches g d w → Reaches g u w

/-- Fuel-bounded depth-first post-order traversal: skip a node already
emitted (`acc`) or currently on the path (back-edge, handled by forward
declaration); otherwise process its dependencies, then emit it. -/
def dfs (g : Nat → List Nat) : Nat → List Nat → Nat → List Nat → List Nat
  | 0, _, _, acc => acc
  | Nat.succ fuel, path, v, acc =>
    if v ∈ acc ∨ v ∈ path then acc
    else (List.foldl (fun a d => dfs g fuel (v :: path) d a) acc (g v)) ++ [v]

/-- Modelled from the spec: `DependencyResolver.resolve` — the ordered,
cycle-safe list of identifiers to declare for a root; fails with
`NotFoundError` when the root identifier is absent. -/
def resolve (s : Session) (root : Nat) : Except EngineError (List Nat) :=
  match s.records.find? (fun r => r.id == root) with
  | none => Except.error EngineError.NotFoundError
  | some _ => Except.ok (dfs (depsOf s) (s.records.length + 1) [] root [])

/-- A session is closed when every referenced identifier resolves to a
record of the same session (spec section 3 invariant). -/
def SessionClosed (s : Session) : Prop :=
  ∀ r ∈ s.records, ∀ d ∈ r.members.map Member.tyId ++ r.bases.map Prod.fst,
    d ∈ sessionIds s

instance (s : Session) : Decidable (SessionClosed s) := by
  unfold SessionClosed; infer_instance

/-- The DFS path is sound when each stacked node has a dependency edge to
the node below it (the node currently being visited at the top). -/
def pathOk (g : Nat → List Nat) : List Nat → Nat → Prop
  | [], _ => True
  | w :: p, v => v ∈ g w ∧ pathOk g p w

/-- In an ordered declaration list, `d` appears strictly before `u`. -/
def appearsBefore (l : List Nat) (d u : Nat) : Prop :=
  ∃ p q, l = p ++ u :: q ∧ d ∈ p

/-- A declaration order is good when every listed identifier's non-cyclic
dependencies appear before it. -/
def goodOrder (g : Nat → List Nat) (l : List Nat) : Prop :=
  ∀ u ∈ l, ∀ d ∈ g u, ¬ Reaches g d u → appearsBefore l d u

/-! ## Reconstructor

Modelled from the spec (section 4.4): render one record, or the resolver's
ordered batch, into declaration text honoring the formatting options. -/

/-- The display name of an identifier, for member/base rendering. -/
def typeNameOf (s : Session) (i : Nat) : String :=
  match s.records.find? (fun r => r.id == i) with
  | none => "<unknown>"
  | some r => r.name

/-- The keyword introducing a record's declaration. -/
def kindKeyword : TypeKind → String
  | TypeKind.struct => "struct"
  | TypeKind.cls => "class"
  | TypeKind.union => "union"
  | TypeKind.enum => "enum"
  | TypeKind.tyAlias => "using"

/-- Access-specifier label text. -/
def accessLabel (a : Nat) : String :=
  if a == 0 then "public" else if a == 1 then "protected" else "private"

/-- The implicit default access level of a kind (classes default to
private, the rest to public). -/
def defaultAccess : TypeKind → Nat
  | TypeKind.cls => 2
  | _ => 0

/-- Render one member as a typed declaration line. -/
def renderMember (s : Session) (m : Member) : String :=
  "  " ++ typeNameOf s m.tyId ++ (if m.isPointer then "* " else " ") ++
    m.name ++ ";\n"

/-- Render the member list; when `showAccess` is set, insert an explicit
access label before the first member of each run whose access level differs
from the previous one (`cur`). -/
def renderMembers (s : Session) (showAccess : Bool) :
    Nat → List Member → String
  | _, [] => ""
  | cur, m :: ms =>
    (if showAccess && !(m.access == cur) then accessLabel m.access ++ ":\n"
     else "") ++
    renderMember s m ++
    renderMembers s showAccess (if showAccess then m.access else cur) ms

/-- Render the base-class list; present and access-qualified only when the
access-specifier option is enabled. -/
def renderBases (s : Session) (showAccess : Bool)
    (bases : List (Nat × Nat)) : String :=
  if showAccess && !bases.isEmpty then
    " : " ++ String.intercalate ", "
      (bases.map (fun b => accessLabel b.2 ++ " " ++ typeNameOf s b.1))
  else ""

/-- Render one enumerator line. -/
def renderEnumerator (e : String × Int) : String :=
  "  " ++ e.1 ++ " = " ++ toString e.2 ++ ",\n"

/-- Render one record's declaration block. -/
def renderRecord (s : Session) (showAccess : Bool) (r : TypeRecord) : String :=
  match r.kind with
  | TypeKind.enum =>
    "enum " ++ r.name ++ " \x7b\n" ++
      String.join (r.enumerators.map renderEnumerator) ++ "\x7d;\n"
  | TypeKind.tyAlias => "using " ++ r.name ++ ";\n"
  | k =>
    kindKeyword k ++ " " ++ r.name ++ renderBases s showAccess r.bases ++
      " \x7b\n" ++ renderMembers s showAccess (defaultAccess k) r.members ++
      "\x7d;\n"

/-- The leading comment banner (source file identity, generation notice),
emitted when the header option is enabled. -/
def headerBanner (s : Session) : String :=
  "//\n// PDB file: " ++ s.sourceFile ++ "\n// Generated by resym\n//\n\n"

/-- Modelled from the spec: reconstruct the type with the given name —
resolve the root by display name, order its dependency closure when the
dependencies option is enabled (root last), render every scheduled record,
and prepend the banner when the header option is enabled. Fails with
`NotFoundError` when no record carries the name. -/
def reconstruct (s : Session) (name : String)
    (includeHeader includeDependencies includeAccess : Bool) :
    Except EngineError String :=
  match s.records.find? (fun r => r.name == name) with
  | none => Except.error EngineError.NotFoundError
  | some r =>
    let order : List Nat :=
      if includeDependencies then dfs (depsOf s) (s.records.length + 1) [] r.id []
      else [r.id]
    let blocks := (order.filterMap
      (fun i => s.records.find? (fun t => t.id == i))).map
      (fun t => renderRecord s includeAccess t)
    Except.ok ((if includeHeader then headerBanner s else "") ++
      String.intercalate "\n" blocks)

/-! ## Command processor -/

/-- Modelled from the spec: the engine's state — the current session, if
any (`Idle` versus `Ready`). -/
structure EngineState where
  session : Option Session
deriving DecidableEq

/-- Modelled from the spec (section 4.5): process one command against the
engine state, returning the successor state and the emitted event, if any
(a successful load emits no event; queries emit exactly one result or error
event). The loader itself is external input, abstracted as a function from
path to session-or-error. -/
def processCommand (loader : String → Except EngineError Session)
    (st : EngineState) (cmd : BackendCommand) :
    EngineState × Option FrontendCommand :=
  match cmd with
  | BackendCommand.LoadPDB path =>
    match loader path with
    | Except.ok s => (⟨some s⟩, none)
    | Except.error e => (st, some (FrontendCommand.Error e "failed to load PDB"))
  | BackendCommand.UpdateTypeFilter pat ci rx =>
    match st.session with
    | none =>
      (st, some (FrontendCommand.Error EngineError.NotFoundError "no PDB loaded"))
    | some s =>
      match search s ⟨pat, ci, rx⟩ with
      | Except.ok l => (st, some (FrontendCommand.UpdateFilteredTypes l))
      | Except.error e => (st, some (FrontendCommand.Error e "search failed"))
  | BackendCommand.ReconstructTypeByName name hdr deps acc =>
    match st.session with
    | none =>
      (st, some (FrontendCommand.Error EngineError.NotFoundError "no PDB loaded"))
    | some s =>
      match reconstruct s name hdr deps acc with
      | Except.ok text => (st, some (FrontendCommand.UpdateReconstructedType text))
      | Except.error e => (st, some (FrontendCommand.Error e "reconstruction failed"))

/-! ## Claim theorems -/

/-- C1: the list command is claimed to output matching type names one per
line both to an output file and to standard output. On the received list
[("A", 0), ("B", 1)] the standard-output path does print one name per line,
but the file path writes the bytes "AB" — the names concatenated with no
separator — which differs from the one-per-line form "A\nB\n". -/
theorem list_file_output_not_one_per_line :
    (listTypesCommand "input.pdb" "filter" false false (some "out.txt")
      [FrontendCommand.UpdateFilteredTypes [("A", 0), ("B", 1)]]).fileOut
      = some "AB" ∧
    (listTypesCommand "input.pdb" "filter" false false none
      [FrontendCommand.UpdateFilteredTypes [("A", 0), ("B", 1)]]).stdoutOut
      = onePerLine ["A", "B"] ∧
    ("AB" : String) ≠ onePerLine ["A", "B"] := by
  refine ⟨rfl, rfl, by decide⟩

/-- C2: for both list and dump, when the first received event is anything
other than the expected success event (the filtered-types event for list,
the reconstructed-type event for dump), the command returns an error
carrying a nonempty descriptive message. -/
theorem unexpected_event_returns_error (pdb filt tn : String) (ci rx h d a hl : Bool)
    (out out2 : Option String) (ps : GrammarSet) (render : String → String → String)
    (ev ev2 : FrontendCommand) (evs evs2 : List FrontendCommand)
    (hne : ∀ tl, ev ≠ FrontendCommand.UpdateFilteredTypes tl)
    (hne2 : ∀ t, ev2 ≠ FrontendCommand.UpdateReconstructedType t) :
    (∃ msg, (listTypesCommand pdb filt ci rx out (ev :: evs)).result
        = Except.error msg ∧ msg ≠ "") ∧
    (∃ msg, (dumpTypesCommand pdb tn h d a hl out2 ps render (ev2 :: evs2)).result
        = Except.error msg ∧ msg ≠ "") := by
  constructor
  · cases ev with
    | UpdateFilteredTypes tl => exact absurd rfl (hne tl)
    | UpdateReconstructedType t =>
      exact ⟨"Invalid response received from the backend?", rfl, by decide⟩
    | Error e m =>
      exact ⟨"Invalid response received from the backend?", rfl, by decide⟩
  · cases ev2 with
    | UpdateReconstructedType t => exact absurd rfl (hne2 t)
    | UpdateFilteredTypes tl =>
      exact ⟨"Invalid response received from the backend?", rfl, by decide⟩
    | Error e m =>
      exact ⟨"Invalid response received from the backend?", rfl, by decide⟩

/-- Witness for C2: a concrete error event received by list, and a concrete
filtered-types event received by dump, both yield a nonempty error. -/
theorem unexpected_event_returns_error_witness :
    (∃ msg, (listTypesCommand "a.pdb" "f" false false none
        [FrontendCommand.Error EngineError.IoError "boom"]).result
        = Except.error msg ∧ msg ≠ "") ∧
    (∃ msg, (dumpTypesCommand "a.pdb" "T" false false false false none
        ⟨fun _ => none, fun _ => none⟩ (fun _ c => c)
        [FrontendCommand.UpdateFilteredTypes []]).result
        = Except.error msg ∧ msg ≠ "") :=
  unexpected_event_returns_error "a.pdb" "f" "T" false false false false false false
    none none ⟨fun _ => none, fun _ => none⟩ (fun _ c => c)
    (FrontendCommand.Error EngineError.IoError "boom")
    (FrontendCommand.UpdateFilteredTypes []) [] []
    (fun tl hc => by cases hc) (fun t hc => by cases hc)

/-- C3: for every dump invocation with an output file path, the bytes
written to the file are exactly the received reconstructed text — nothing
is printed and no colorization happens even when the highlight flag is
set; highlighting is reachable only in the no-output-file case. -/
theorem dump_file_output_exact (pdb tn p : String) (h d a hl : Bool)
    (ps : GrammarSet) (render : String → String → String)
    (text : String) (evs : List FrontendCommand) :
    (dumpTypesCommand pdb tn h d a hl (some p) ps render
      (FrontendCommand.UpdateReconstructedType text :: evs)).fileOut = some text ∧
    (dumpTypesCommand pdb tn h d a hl (some p) ps render
      (FrontendCommand.UpdateReconstructedType text :: evs)).stdoutOut = "" ∧
    (dumpTypesCommand pdb tn h d a hl (some p) ps render
      (FrontendCommand.UpdateReconstructedType text :: evs)).result = Except.ok () :=
  ⟨rfl, rfl, rfl⟩

/-- C4: both list and dump send exactly two backend commands — LoadPDB
first, then the query command — and consume exactly one reply event before
finishing. -/
theorem two_commands_one_reply (pdb filt tn : String) (ci rx h d a hl : Bool)
    (out out2 : Option String) (ps : GrammarSet) (render : String → String → String)
    (ev ev2 : FrontendCommand) (evs evs2 : List FrontendCommand) :
    (listTypesCommand pdb filt ci rx out (ev :: evs)).sent
        = [BackendCommand.LoadPDB pdb,
           BackendCommand.UpdateTypeFilter filt ci rx] ∧
    (listTypesCommand pdb filt ci rx out (ev :: evs)).consumed = 1 ∧
    (dumpTypesCommand pdb tn h d a hl out2 ps render (ev2 :: evs2)).sent
        = [BackendCommand.LoadPDB pdb,
           BackendCommand.ReconstructTypeByName tn h d a] ∧
    (dumpTypesCommand pdb tn h d a hl out2 ps render (ev2 :: evs2)).consumed = 1 := by
  refine ⟨?_, ?_, ?_, ?_⟩ <;>
    cases ev <;> cases ev2 <;> cases out <;> cases out2 <;>
    simp [listTypesCommand, dumpTypesCommand] <;>
    cases hl <;> simp <;>
    rcases highlightCode ps render _ "cpp" with _ | _ <;> simp

/-- C9: when the dump command runs with the highlight flag and no output
file, and the grammar set has no language named "cpp" and none registered
for the extension "cpp", the command prints nothing at all yet still
returns success. -/
theorem highlight_miss_prints_nothing_still_ok (pdb tn : String) (h d a : Bool)
    (ps : GrammarSet) (render : String → String → String)
    (text : String) (evs : List FrontendCommand)
    (h1 : ps.findByName "cpp" = none) (h2 : ps.findByExtension "cpp" = none) :
    (dumpTypesCommand pdb tn h d a true none ps render
      (FrontendCommand.UpdateReconstructedType text :: evs)).stdoutOut = "" ∧
    (dumpTypesCommand pdb tn h d a true none ps render
      (FrontendCommand.UpdateReconstructedType text :: evs)).fileOut = none ∧
    (dumpTypesCommand pdb tn h d a true none ps render
      (FrontendCommand.UpdateReconstructedType text :: evs)).result
        = Except.ok () := by
  simp [dumpTypesCommand, highlightCode, h1, h2]

/-- Witness for C9: a concrete grammar set with no grammars at all makes
the highlighted dump print nothing and succeed. -/
theorem highlight_miss_prints_nothing_still_ok_witness :
    (dumpTypesCommand "a.pdb" "T" false false false true none
      ⟨fun _ => none, fun _ => none⟩ (fun _ c => c)
      [FrontendCommand.UpdateReconstructedType "struct T;"]).stdoutOut = "" ∧
    (dumpTypesCommand "a.pdb" "T" false false false true none
      ⟨fun _ => none, fun _ => none⟩ (fun _ c => c)
      [FrontendCommand.UpdateReconstructedType "struct T;"]).fileOut = none ∧
    (dumpTypesCommand "a.pdb" "T" false false false true none
      ⟨fun _ => none, fun _ => none⟩ (fun _ c => c)
      [FrontendCommand.UpdateReconstructedType "struct T;"]).result
        = Except.ok () :=
  highlight_miss_prints_nothing_still_ok "a.pdb" "T" false false false
    ⟨fun _ => none, fun _ => none⟩ (fun _ c => c) "struct T;" [] rfl rfl

/-- C10: the list command's observable outcome depends only on the sequence
of display names in the received filtered type list: two received lists
with equal name sequences but arbitrary identifiers yield identical
outcomes (same file bytes, same stdout bytes, same result). -/
theorem list_output_ignores_identifiers (pdb filt : String) (ci rx : Bool)
    (out : Option String) (l1 l2 : List (String × Nat))
    (evs : List FrontendCommand)
    (hnames : l1.map Prod.fst = l2.map Prod.fst) :
    listTypesCommand pdb filt ci rx out
        (FrontendCommand.UpdateFilteredTypes l1 :: evs)
      = listTypesCommand pdb filt ci rx out
        (FrontendCommand.UpdateFilteredTypes l2 :: evs) := by
  have hlines : l1.map (fun p => p.fst ++ "\n") = l2.map (fun p => p.fst ++ "\n") := by
    have e1 : l1.map (fun p => p.fst ++ "\n")
        = (l1.map Prod.fst).map (fun n => n ++ "\n") := by
      rw [List.map_map]; rfl
    have e2 : l2.map (fun p => p.fst ++ "\n")
        = (l2.map Prod.fst).map (fun n => n ++ "\n") := by
      rw [List.map_map]; rfl
    rw [e1, e2, hnames]
  cases out <;> simp [listTypesCommand, hnames, hlines]

/-- Witness for C10: two concrete lists with the same names but different
identifiers produce identical outcomes. -/
theorem list_output_ignores_identifiers_witness :
    listTypesCommand "a.pdb" "f" false false (some "o.txt")
        (FrontendCommand.UpdateFilteredTypes [("A", 0), ("B", 1)] :: [])
      = listTypesCommand "a.pdb" "f" false false (some "o.txt")
        (FrontendCommand.UpdateFilteredTypes [("A", 7), ("B", 42)] :: []) :=
  list_output_ignores_identifiers "a.pdb" "f" false false (some "o.txt")
    [("A", 0), ("B", 1)] [("A", 7), ("B", 42)] [] rfl

/-! ### Matching lemmas -/

/-- The empty pattern is contained in every subject. -/
theorem containsSub_empty_pat (cs : List Char) : containsSub [] cs = true := by
  cases cs <;> simp [containsSub, prefixMatch]

/-- An empty atom list with no end anchor matches at the current position. -/
theorem matchAtoms_nil_unanchored (cs : List Char) :
    matchAtoms [] cs false = true := rfl

/-- An unanchored empty atom list matches every subject. -/
theorem searchFrom_empty_atoms (cs : List Char) : searchFrom [] false cs = true := by
  cases cs with
  | nil => rfl
  | cons c cs => rw [searchFrom, matchAtoms_nil_unanchored, Bool.true_or]

/-- Preparing the empty pattern yields the empty pattern. -/
theorem prepChars_empty (ci : Bool) : prepChars ci [] = [] := by
  cases ci <;> rfl

/-- Fuel-bounded form: with sufficient fuel, an end-anchored sequence of
literal atoms matched from the front accepts exactly the literal sequence
itself. -/
theorem matchAtomsF_lits : ∀ (ls cs : List Char) (f : Nat),
    ls.length + cs.length + 1 ≤ f →
    ((matchAtomsF f (ls.map Atom.lit) cs true = true) ↔ cs = ls) := by
  intro ls
  induction ls with
  | nil =>
    intro cs f hf
    cases f with
    | zero => exact absurd hf (by omega)
    | succ f =>
      cases cs with
      | nil => simp [show matchAtomsF (f + 1) [] [] true = true from rfl]
      | cons c cs =>
        simp [show matchAtomsF (f + 1) [] (c :: cs) true = false from rfl]
  | cons a ls ih =>
    intro cs f hf
    cases f with
    | zero => exact absurd hf (by omega)
    | succ f =>
      cases cs with
      | nil =>
        simp [show matchAtomsF (f + 1) (Atom.lit a :: ls.map Atom.lit) [] true
          = false from rfl]
      | cons c cs =>
        have hb : ls.length + cs.length + 1 ≤ f := by
          simp only [List.length_cons] at hf
          omega
        rw [show matchAtomsF (f + 1) ((a :: ls).map Atom.lit) (c :: cs) true
          = (a == c && matchAtomsF f (ls.map Atom.lit) cs true) from rfl]
        rw [Bool.and_eq_true, beq_iff_eq, ih cs f hb, List.cons.injEq]
        constructor
        · rintro ⟨h1, h2⟩
          exact ⟨h1.symm, h2⟩
        · rintro ⟨h1, h2⟩
          exact ⟨h1.symm, h2⟩

/-- An end-anchored sequence of literal atoms matched from the front accepts
exactly the literal sequence itself. -/
theorem matchAtoms_lits (ls cs : List Char) :
    (matchAtoms (ls.map Atom.lit) cs true = true) ↔ cs = ls := by
  unfold matchAtoms
  apply matchAtomsF_lits
  simp

/-- Processing a reconstruct-by-name command leaves the engine state (hence
the session) unchanged. -/
theorem processCommand_reconstruct_preserves_state
    (loader : String → Except EngineError Session) (st : EngineState)
    (name : String) (hdr deps acc : Bool) :
    (processCommand loader st
      (BackendCommand.ReconstructTypeByName name hdr deps acc)).1 = st := by
  cases h : st.session with
  | none => simp [processCommand, h]
  | some s =>
    cases hr : reconstruct s name hdr deps acc <;> simp [processCommand, h, hr]

/-- C5: for a fixed session, issuing the same reconstruct request twice in
a row against the engine yields identical emitted events — in particular
byte-identical declaration text — because processing a reconstruct command
never changes the engine state and reconstruction is a pure function of the
session and the request. -/
theorem reconstruct_request_deterministic
    (loader : String → Except EngineError Session) (st : EngineState)
    (name : String) (hdr deps acc : Bool) :
    (processCommand loader
        (processCommand loader st
          (BackendCommand.ReconstructTypeByName name hdr deps acc)).1
        (BackendCommand.ReconstructTypeByName name hdr deps acc)).2
      = (processCommand loader st
          (BackendCommand.ReconstructTypeByName name hdr deps acc)).2 := by
  rw [processCommand_reconstruct_preserves_state]

/-- C7: searching with an empty pattern returns every record of the index
exactly once — the result is literally the record list, in the type
stream's declaration order, projected to (name, identifier). -/
theorem empty_pattern_lists_all_records (s : Session) (ci rx : Bool) :
    search s ⟨"", ci, rx⟩
      = Except.ok (s.records.map (fun r => (r.name, r.id))) := by
  have hsub : s.records.filter
      (fun r => containsSub (prepChars ci "".data) (prepChars ci r.name.data))
      = s.records := by
    apply List.filter_eq_self.mpr
    intro r _
    rw [show ("".data : List Char) = [] from rfl, prepChars_empty,
      containsSub_empty_pat]
  have hre : ∀ ci2 : Bool, s.records.filter
      (fun r => regexAccepts ⟨false, false, []⟩ (prepChars ci2 r.name.data))
      = s.records := by
    intro ci2
    apply List.filter_eq_self.mpr
    intro r _
    exact searchFrom_empty_atoms _
  cases rx with
  | false =>
    rw [show search s ⟨"", ci, false⟩
      = Except.ok ((s.records.filter
          (fun r => containsSub (prepChars ci "".data)
            (prepChars ci r.name.data))).map
          (fun r => (r.name, r.id))) from rfl, hsub]
  | true =>
    cases ci with
    | false =>
      rw [show search s ⟨"", false, true⟩
        = Except.ok ((s.records.filter
            (fun r => regexAccepts ⟨false, false, []⟩
              (prepChars false r.name.data))).map
            (fun r => (r.name, r.id))) from rfl, hre false]
    | true =>
      rw [show search s ⟨"", true, true⟩
        = Except.ok ((s.records.filter
            (fun r => regexAccepts ⟨false, false, []⟩
              (prepChars true r.name.data))).map
            (fun r => (r.name, r.id))) from rfl, hre true]

/-- C8: with the regex flag set, the anchored pattern "^MyClass$" matches
exactly the records whose display name is "MyClass" (a full anchored match,
not containment); in particular an index holding only "MyClassExtra"
yields an empty result. -/
theorem anchored_regex_matches_exact_name (s : Session) :
    search s ⟨"^MyClass$", false, true⟩
      = Except.ok ((s.records.filter (fun r => r.name == "MyClass")).map
          (fun r => (r.name, r.id))) ∧
    search ⟨[⟨1, TypeKind.struct, "MyClassExtra", 0, [], [], []⟩], "x.pdb", 0⟩
        ⟨"^MyClass$", false, true⟩ = Except.ok [] := by
  constructor
  · have hf : s.records.filter
        (fun r => regexAccepts ⟨true, true, "MyClass".data.map Atom.lit⟩
          (prepChars false r.name.data))
        = s.records.filter (fun r => r.name == "MyClass") := by
      apply List.filter_congr
      intro r _
      rw [show regexAccepts ⟨true, true, "MyClass".data.map Atom.lit⟩
          (prepChars false r.name.data)
        = matchAtoms ("MyClass".data.map Atom.lit) r.name.data true from rfl]
      rw [Bool.eq_iff_iff, matchAtoms_lits, beq_iff_eq]
      exact String.ext_iff.symm
    rw [show search s ⟨"^MyClass$", false, true⟩
      = Except.ok ((s.records.filter
          (fun r => regexAccepts ⟨true, true, "MyClass".data.map Atom.lit⟩
            (prepChars false r.name.data))).map
          (fun r => (r.name, r.id))) from rfl, hf]
  · rfl

/-! ### Dependency-resolver ordering lemmas -/

/-- A duplicate-free list contained in another list is no longer than it. -/
theorem nodup_subset_length_le (l1 l2 : List Nat) (h : l1.Nodup)
    (hs : l1 ⊆ l2) : l1.length ≤ l2.length := by
  have hc := Finset.card_le_card
    (show l1.toFinset ⊆ l2.toFinset by
      intro a ha
      simp only [List.mem_toFinset] at ha ⊢
      exact hs ha)
  have h1 := List.toFinset_card_of_nodup h
  have h3 := l2.toFinset_card_le
  omega

/-- A fold whose step function only appends extends its accumulator. -/
theorem foldl_extends (f : List Nat → Nat → List Nat)
    (hf : ∀ a d, ∃ t, f a d = a ++ t) :
    ∀ (ds : List Nat) (acc : List Nat), ∃ t, List.foldl f acc ds = acc ++ t := by
  intro ds
  induction ds with
  | nil => intro acc; exact ⟨[], by simp⟩
  | cons d ds ih =>
    intro acc
    obtain ⟨t1, h1⟩ := hf acc d
    obtain ⟨t2, h2⟩ := ih (f acc d)
    exact ⟨t1 ++ t2, by rw [List.foldl_cons, h2, h1, List.append_assoc]⟩

/-- The traversal only ever appends to its accumulator. -/
theorem dfs_extends (g : Nat → List Nat) :
    ∀ (fuel : Nat) (path : List Nat) (v : Nat) (acc : List Nat),
      ∃ t, dfs g fuel path v acc = acc ++ t := by
  intro fuel
  induction fuel with
  | zero => intro path v acc; exact ⟨[], by simp [dfs]⟩
  | succ fuel ih =>
    intro path v acc
    by_cases h : v ∈ acc ∨ v ∈ path
    · exact ⟨[], by simp [dfs, h]⟩
    · obtain ⟨t, ht⟩ := foldl_extends (fun a d => dfs g fuel (v :: path) d a)
        (fun a d => ih (v :: path) d a) (g v) acc
      exact ⟨t ++ [v], by rw [dfs]; simp [h, ht]⟩

/-- Reachability is preserved by appending one dependency edge. -/
theorem reaches_snoc {g : Nat → List Nat} {x w v : Nat}
    (hr : Reaches g x w) (he : v ∈ g w) : Reaches g x v := by
  induction hr with
  | refl u => exact Reaches.step he (Reaches.refl v)
  | step hd _ ih => exact Reaches.step hd (ih he)

/-- Every identifier on a sound DFS path reaches the node being visited. -/
theorem pathOk_reaches {g : Nat → List Nat} :
    ∀ (path : List Nat) (v x : Nat), pathOk g path v → x ∈ path →
      Reaches g x v := by
  intro path
  induction path with
  | nil =>
    intro v x _ hx
    cases hx
  | cons w p ih =>
    intro v x hpo hx
    obtain ⟨hedge, hpo2⟩ := hpo
    rcases List.mem_cons.mp hx with rfl | hx2
    · exact Reaches.step hedge (Reaches.refl v)
    · exact reaches_snoc (ih w x hpo2 hx2) hedge

/-- Precedence in a list is preserved by appending on the right. -/
theorem appearsBefore_append (l t : List Nat) (d u : Nat)
    (h : appearsBefore l d u) : appearsBefore (l ++ t) d u := by
  obtain ⟨p, q, rfl, hd⟩ := h
  exact ⟨p, q ++ t, by simp, hd⟩

/-- Appending an element whose non-cyclic dependencies are already listed
preserves goodness of the order. -/
theorem goodOrder_append_elem {g : Nat → List Nat} {l : List Nat} {v : Nat}
    (hg : goodOrder g l)
    (hv : ∀ d ∈ g v, ¬ Reaches g d v → d ∈ l) :
    goodOrder g (l ++ [v]) := by
  intro u hu d hd hnr
  rcases List.mem_append.mp hu with hu2 | hu2
  · exact appearsBefore_append _ _ _ _ (hg u hu2 d hd hnr)
  · have : u = v := by simpa using hu2
    subst this
    exact ⟨l, [], rfl, hv d hd hnr⟩

/-- Main invariant of the depth-first traversal: starting from a sound path
and a good, duplicate-free, path-disjoint accumulator, and with enough fuel
(the fuel plus the path length exceeding the number of identifiers), the
traversal emits the visited node unless it is on the path, keeps the order
good and duplicate-free, and adds only identifiers that avoid the path. -/
theorem dfs_main (g : Nat → List Nat) (ids : List Nat)
    (hclosed : ∀ x d, d ∈ g x → d ∈ ids) :
    ∀ (fuel : Nat) (path : List Nat) (v : Nat) (acc : List Nat),
      ids.length + 1 ≤ fuel + path.length →
      path ⊆ ids → path.Nodup → pathOk g path v → v ∈ ids →
      goodOrder g acc → acc.Nodup → (∀ x ∈ acc, x ∉ path) →
      (v ∈ dfs g fuel path v acc ∨ v ∈ path) ∧
      goodOrder g (dfs g fuel path v acc) ∧
      (dfs g fuel path v acc).Nodup ∧
      (∀ x ∈ dfs g fuel path v acc, x ∈ acc ∨ (x ∈ ids ∧ x ∉ path)) := by
  intro fuel
  induction fuel with
  | zero =>
    intro path v acc hb hsub hnd _ _ _ _ _
    exact absurd hb (by
      have := nodup_subset_length_le path ids hnd hsub
      omega)
  | succ fuel ih =>
    intro path v acc hb hsub hnd hpo hvids hgood hand hdisj
    by_cases hskip : v ∈ acc ∨ v ∈ path
    · rw [dfs, if_pos hskip]
      refine ⟨?_, hgood, hand, ?_⟩
      · rcases hskip with h | h
        · exact Or.inl h
        · exact Or.inr h
      · intro x hx
        exact Or.inl hx
    · push_neg at hskip
      obtain ⟨hvacc, hvpath⟩ := hskip
      have inner : ∀ (ds : List Nat), (∀ d ∈ ds, d ∈ g v) →
          ∀ (a : List Nat), goodOrder g a → a.Nodup →
          (∀ x ∈ a, x ∈ acc ∨ (x ∈ ids ∧ x ∉ v :: path)) →
          goodOrder g (List.foldl (fun a2 d => dfs g fuel (v :: path) d a2) a ds) ∧
          (List.foldl (fun a2 d => dfs g fuel (v :: path) d a2) a ds).Nodup ∧
          (∀ x ∈ List.foldl (fun a2 d => dfs g fuel (v :: path) d a2) a ds,
            x ∈ a ∨ (x ∈ ids ∧ x ∉ v :: path)) ∧
          (∀ d ∈ ds,
            d ∈ List.foldl (fun a2 d => dfs g fuel (v :: path) d a2) a ds ∨
              d ∈ v :: path) := by
        intro ds
        induction ds with
        | nil =>
          intro _ a hg1 hn1 hx1
          refine ⟨hg1, hn1, ?_, ?_⟩
          · intro x hx
            exact Or.inl hx
          · intro d hd
            cases hd
        | cons d ds ihd =>
          intro hds a hg1 hn1 hx1
          have hdg : d ∈ g v := hds d (List.mem_cons_self d ds)
          have hdisj2 : ∀ x ∈ a, x ∉ v :: path := by
            intro x hx
            rcases hx1 x hx with hxa | ⟨_, hxp⟩
            · intro hmem
              rcases List.mem_cons.mp hmem with rfl | hmem2
              · exact hvacc hxa
              · exact hdisj x hxa hmem2
            · exact hxp
          have hstep := ih (v :: path) d a
            (by simp only [List.length_cons]; omega)
            (fun y hy => by
              rcases List.mem_cons.mp hy with rfl | hy2
              · exact hvids
              · exact hsub hy2)
            (List.nodup_cons.mpr ⟨hvpath, hnd⟩)
            (⟨hdg, hpo⟩ : pathOk g (v :: path) d)
            (hclosed v d hdg)
            hg1 hn1 hdisj2
          obtain ⟨hdmem, hg2, hn2, hx2⟩ := hstep
          have hx2b : ∀ x ∈ dfs g fuel (v :: path) d a,
              x ∈ a ∨ (x ∈ ids ∧ x ∉ v :: path) := by
            intro x hx
            rcases hx2 x hx with hxa | hxr
            · exact Or.inl hxa
            · exact Or.inr hxr
          have hrest := ihd (fun d2 hd2 => hds d2 (List.mem_cons_of_mem d hd2))
            (dfs g fuel (v :: path) d a) hg2 hn2
            (by
              intro x hx
              rcases hx2b x hx with hxa | hxr
              · exact hx1 x hxa
              · exact Or.inr hxr)
          obtain ⟨hg3, hn3, hx3, hall3⟩ := hrest
          refine ⟨hg3, hn3, ?_, ?_⟩
          · intro x hx
            rcases hx3 x hx with hxa | hxr
            · rcases hx2b x hxa with hxa2 | hxr2
              · exact Or.inl hxa2
              · exact Or.inr hxr2
            · exact Or.inr hxr
          · intro d2 hd2
            rcases List.mem_cons.mp hd2 with rfl | hd2b
            · rcases hdmem with hmem | hmem
              · obtain ⟨t, ht⟩ := foldl_extends
                  (fun a2 d3 => dfs g fuel (v :: path) d3 a2)
                  (fun a2 d3 => dfs_extends g fuel (v :: path) d3 a2) ds
                  (dfs g fuel (v :: path) d2 a)
                rw [List.foldl_cons, ht]
                exact Or.inl (List.mem_append_left t hmem)
              · exact Or.inr hmem
            · exact hall3 d2 hd2b
      have hinner := inner (g v) (fun d hd => hd) acc hgood hand
        (by
          intro x hx
          refine Or.inl hx)
      obtain ⟨hg2, hn2, hx2, hall2⟩ := hinner
      rw [dfs, if_neg (by
        intro hor
        rcases hor with h | h
        · exact hvacc h
        · exact hvpath h)]
      set acc2 := List.foldl (fun a2 d => dfs g fuel (v :: path) d a2) acc (g v) with hacc2
      have hvnot : v ∉ acc2 := by
        intro hvmem
        rcases hx2 v hvmem with hva | ⟨_, hvp⟩
        · exact hvacc hva
        · exact hvp (List.mem_cons_self v path)
      refine ⟨?_, ?_, ?_, ?_⟩
      · exact Or.inl (List.mem_append_right acc2 (List.mem_singleton.mpr rfl))
      · apply goodOrder_append_elem hg2
        intro d hd hnr
        rcases hall2 d hd with hmem | hmem
        · exact hmem
        · exfalso
          rcases List.mem_cons.mp hmem with rfl | hmem2
          · exact hnr (Reaches.refl d)
          · exact hnr (pathOk_reaches path v d hpo hmem2)
      · rw [List.nodup_append]
        refine ⟨hn2, List.nodup_singleton v, ?_⟩
        intro x hx hx2b
        rw [List.mem_singleton] at hx2b
        subst hx2b
        exact hvnot hx
      · intro x hx
        rcases List.mem_append.mp hx with hxl | hxr
        · rcases hx2 x hxl with hxa | ⟨hxi, hxp⟩
          · exact Or.inl hxa
          · exact Or.inr ⟨hxi, fun hc => hxp (List.mem_cons_of_mem v hc)⟩
        · rw [List.mem_singleton] at hxr
          subst hxr
          exact Or.inr ⟨hvids, hvpath⟩

/-- In a closed session every dependency edge lands on a session
identifier. -/
theorem depsOf_closed (s : Session) (hc : SessionClosed s) (x d : Nat)
    (hd : d ∈ depsOf s x) : d ∈ sessionIds s := by
  unfold depsOf at hd
  cases hfind : s.records.find? (fun r => r.id == x) with
  | none => simp [hfind] at hd
  | some r =>
    simp only [hfind] at hd
    exact hc r (List.mem_of_find?_eq_some hfind) d hd

/-- C6: in the resolver's ordered identifier list, every listed
identifier's non-cyclic dependencies precede it: whenever `resolve`
succeeds on a closed session, any direct dependency `d` of a listed
identifier `u` that does not reach back to `u` (the edge closes no cycle)
appears strictly before `u` in the list — hence, with dependencies enabled,
its rendered block precedes `u`'s block. -/
theorem resolve_nonCyclic_deps_precede (s : Session) (root : Nat)
    (l : List Nat) (hc : SessionClosed s)
    (hres : resolve s root = Except.ok l)
    (u : Nat) (hu : u ∈ l) (d : Nat) (hd : d ∈ depsOf s u)
    (hnc : ¬ Reaches (depsOf s) d u) :
    appearsBefore l d u := by
  unfold resolve at hres
  cases hfind : s.records.find? (fun r => r.id == root) with
  | none => rw [hfind] at hres; cases hres
  | some r =>
    rw [hfind] at hres
    have hl : l = dfs (depsOf s) (s.records.length + 1) [] root [] := by
      injection hres with h
      exact h.symm
    have hrootid : r.id = root := by
      have := List.find?_some hfind
      simpa using this
    have hrootmem : root ∈ sessionIds s := by
      rw [← hrootid]
      exact List.mem_map_of_mem TypeRecord.id (List.mem_of_find?_eq_some hfind)
    have hmain := dfs_main (depsOf s) (sessionIds s) (depsOf_closed s hc)
      (s.records.length + 1) [] root []
      (by simp [sessionIds]) (by simp) List.nodup_nil trivial hrootmem
      (by intro u2 hu2; cases hu2) List.nodup_nil (by intro x hx; cases hx)
    obtain ⟨_, hgood, _, _⟩ := hmain
    rw [hl]
    exact hgood u (by rw [← hl]; exact hu) d hd hnc

/-- Witness for C6: in a session where type A (identifier 0) has a member
of type B (identifier 1) and B has no dependencies, resolving A yields
[1, 0] and the non-cyclic dependency 1 appears before 0. -/
theorem resolve_nonCyclic_deps_precede_witness :
    appearsBefore [1, 0] 1 0 := by
  have hnc : ¬ Reaches (depsOf
      (⟨[⟨0, TypeKind.struct, "A", 8, [⟨"b", 0, 1, 0, false⟩], [], []⟩,
         ⟨1, TypeKind.struct, "B", 4, [], [], []⟩], "w.pdb", 0⟩ : Session)) 1 0 := by
    intro h
    cases h with
    | step hmem hr => exact List.not_mem_nil _ hmem
  exact resolve_nonCyclic_deps_precede
    ⟨[⟨0, TypeKind.struct, "A", 8, [⟨"b", 0, 1, 0, false⟩], [], []⟩,
      ⟨1, TypeKind.struct, "B", 4, [], [], []⟩], "w.pdb", 0⟩
    0 [1, 0] (by decide) rfl 0 (by decide) 1 (by decide) hnc
